import Mathlib

set_option maxHeartbeats 1000000

/-!
Verification development for the comment-task queue and reply adapter.

The database table `ig_comment_task` is embedded as a list of rows; each
SQL statement of `db/schema.py` becomes a pure function from queue state
to queue state.  Timestamps (`NOW()`) are passed in explicitly as natural
numbers.  The JSONB `payload_json` column is not modelled: no claim
mentions it.  `FOR UPDATE SKIP LOCKED` row locking makes every claim
transaction atomic, so concurrent executions serialize; concurrency is
modelled as sequential composition of the atomic transactions in an
arbitrary order.
-/

namespace TryInsta

/-- Python `str.strip()`: drop leading and trailing whitespace. -/
def pyStrip (s : String) : String :=
  String.mk (((s.data.dropWhile Char.isWhitespace).reverse.dropWhile
    Char.isWhitespace).reverse)

/-- Python `str.rstrip()`: drop trailing whitespace. -/
def pyRstrip (s : String) : String :=
  String.mk ((s.data.reverse.dropWhile Char.isWhitespace).reverse)

/-- Python `str.lower()` (ASCII range, which covers every compared value). -/
def pyLower (s : String) : String :=
  String.mk (s.data.map Char.toLower)

/-- Python `int(...)` on an all-digit string. -/
def pyInt (s : String) : Nat :=
  s.data.foldl (fun acc c => acc * 10 + (c.toNat - 48)) 0

/-- One row of the `ig_comment_task` table (payload_json omitted). -/
structure CommentTask where
  id : Nat
  comment_id : String
  media_id : Option String
  parent_id : Option String
  commenter_username : Option String
  comment_text : Option String
  source_event_id : Option Nat
  status : String
  attempts : Nat
  last_error : Option String
  reply_mode_snapshot : Option String
  reply_text : Option String
  reply_comment_id : Option String
  processed_at : Option Nat
  created_at : Nat
  updated_at : Nat
deriving Repr, DecidableEq

/-- The `ig_comment_task` table: its rows plus the BIGSERIAL counter. -/
structure Queue where
  rows : List CommentTask
  next_id : Nat
deriving Repr, DecidableEq

/-- The ORDER BY (created_at ASC, id ASC) key, strictly. -/
def keyLt (a b : CommentTask) : Prop :=
  a.created_at < b.created_at ∨ (a.created_at = b.created_at ∧ a.id < b.id)

/-- The ORDER BY (created_at ASC, id ASC) key, non-strictly. -/
def keyLe (a b : CommentTask) : Prop :=
  a.created_at < b.created_at ∨ (a.created_at = b.created_at ∧ a.id ≤ b.id)

instance (a b : CommentTask) : Decidable (keyLt a b) := by
  unfold keyLt; infer_instance

instance (a b : CommentTask) : Decidable (keyLe a b) := by
  unfold keyLe; infer_instance

/-- Helper selecting the minimum of a nonempty list under the ORDER BY key. -/
def minByKey : CommentTask → List CommentTask → CommentTask
  | t, [] => t
  | t, u :: us => minByKey (if keyLt u t then u else t) us

/-- The row that `SELECT ... WHERE status = 'todo' ORDER BY created_at, id LIMIT 1` picks. -/
def minTodo (rows : List CommentTask) : Option CommentTask :=
  match rows.filter (fun t => t.status == "todo") with
  | [] => none
  | t :: ts => some (minByKey t ts)

/-- The UPDATE applied by `claim_next_comment_task` to the selected row. -/
def claimed_update (t : CommentTask) (now : Nat) : CommentTask :=
  { t with status := "processing", attempts := t.attempts + 1, updated_at := now }

/-- `claim_next_comment_task` (schema.py): one atomic transaction that picks the
oldest `todo` row, flips it to `processing`, increments attempts, stamps
`updated_at`, and returns the updated row; returns none when no `todo` row exists. -/
def claim_next_comment_task (now : Nat) (q : Queue) : Option CommentTask × Queue :=
  match minTodo q.rows with
  | none => (none, q)
  | some m =>
    (some (claimed_update m now),
     { q with rows := q.rows.map (fun u => if u.id = m.id then claimed_update m now else u) })

/-- `_clean_str` (schema.py): strip, empty becomes NULL. -/
def _clean_str (v : Option String) : Option String :=
  match v with
  | none => none
  | some s => if pyStrip s = "" then none else some (pyStrip s)

/-- One candidate task handed to `enqueue_comment_tasks` by the webhook layer. -/
structure CandidateTask where
  comment_id : Option String
  media_id : Option String
  parent_id : Option String
  commenter_username : Option String
  comment_text : Option String
deriving Repr, DecidableEq

/-- The comment_id actually used by `enqueue_comment_tasks`:
`str(task.get("comment_id") or "").strip()`. -/
def effectiveCid (c : CandidateTask) : String :=
  pyStrip (c.comment_id.getD "")

/-- The fresh row INSERTed by `enqueue_comment_tasks` for one candidate. -/
def newTaskRow (c : CandidateTask) (cid : String) (sid : Option Nat) (i now : Nat) :
    CommentTask :=
  { id := i, comment_id := cid, media_id := _clean_str c.media_id,
    parent_id := _clean_str c.parent_id,
    commenter_username := _clean_str c.commenter_username,
    comment_text := _clean_str c.comment_text,
    source_event_id := sid, status := "todo", attempts := 0, last_error := none,
    reply_mode_snapshot := none, reply_text := none, reply_comment_id := none,
    processed_at := none, created_at := now, updated_at := now }

/-- `enqueue_comment_tasks` (schema.py): per candidate, skip when the stripped
comment_id is empty; `ON CONFLICT (comment_id) DO NOTHING` skips when a row with
that comment_id already exists; otherwise insert with status `todo` and count it. -/
def enqueue_comment_tasks (tasks : List CandidateTask) (sid : Option Nat) (now : Nat)
    (q : Queue) : Nat × Queue :=
  match tasks with
  | [] => (0, q)
  | c :: rest =>
    if effectiveCid c = "" then enqueue_comment_tasks rest sid now q
    else if q.rows.any (fun r => r.comment_id == effectiveCid c) then
      enqueue_comment_tasks rest sid now q
    else
      ((enqueue_comment_tasks rest sid now
          (Queue.mk (q.rows ++ [newTaskRow c (effectiveCid c) sid q.next_id now])
            (q.next_id + 1))).1 + 1,
       (enqueue_comment_tasks rest sid now
          (Queue.mk (q.rows ++ [newTaskRow c (effectiveCid c) sid q.next_id now])
            (q.next_id + 1))).2)

/-- `_normalize_reply_mode` (schema.py): strip and lowercase, then keep only
the three recognized modes, defaulting to `draft`. -/
def _normalize_reply_mode (mode : String) : String :=
  if pyLower (pyStrip mode) = "off" ∨ pyLower (pyStrip mode) = "draft" ∨
     pyLower (pyStrip mode) = "auto"
  then pyLower (pyStrip mode) else "draft"

/-- `get_comment_reply_mode` (schema.py): the stored `bot_settings` value when
present and non-empty, else the (normalized) environment default; the stored
value is itself normalized on read. -/
def get_comment_reply_mode (envDefault : String) (stored : Option String) : String :=
  let env := _normalize_reply_mode envDefault
  match stored with
  | none => env
  | some v => if v = "" then env else _normalize_reply_mode v

/-- `set_comment_reply_mode` (schema.py): upsert the normalized mode, return it.
Result: (returned value, new stored value). -/
def set_comment_reply_mode (mode : String) : String × Option String :=
  let normalized := _normalize_reply_mode mode
  (normalized, some normalized)

/-- `[:4000]` truncation used by `mark_comment_task_error`. -/
def _truncate_error (s : String) : String :=
  String.mk (s.data.take 4000)

/-- The SET clause of `mark_comment_task_done` applied to one row. -/
def doneRowUpdate (reply_mode_snapshot : String) (reply_text : Option String)
    (reply_comment_id : Option String) (now : Nat) (t : CommentTask) : CommentTask :=
  { t with status := "done",
           reply_mode_snapshot := some (_normalize_reply_mode reply_mode_snapshot),
           reply_text := reply_text, reply_comment_id := reply_comment_id,
           last_error := none, processed_at := some now, updated_at := now }

/-- The SET clause of `mark_comment_task_error` applied to one row, with
`(error_message or "Unknown error")[:4000]`. -/
def errorRowUpdate (error_message : String) (now : Nat) (t : CommentTask) : CommentTask :=
  { t with status := "error",
           last_error :=
             some (_truncate_error
               (if error_message = "" then "Unknown error" else error_message)),
           processed_at := some now, updated_at := now }

/-- `mark_comment_task_done` (schema.py): unconditional terminal UPDATE to `done`. -/
def mark_comment_task_done (task_id : Nat) (reply_mode_snapshot : String)
    (reply_text : Option String) (reply_comment_id : Option String) (now : Nat)
    (q : Queue) : Queue :=
  { q with rows := q.rows.map (fun t =>
      if t.id = task_id then doneRowUpdate reply_mode_snapshot reply_text reply_comment_id now t
      else t) }

/-- `mark_comment_task_error` (schema.py): unconditional terminal UPDATE to
`error`. -/
def mark_comment_task_error (task_id : Nat) (error_message : String) (now : Nat)
    (q : Queue) : Queue :=
  { q with rows := q.rows.map (fun t =>
      if t.id = task_id then errorRowUpdate error_message now t else t) }

/-- Row lookup by primary key. -/
def findRow (i : Nat) (q : Queue) : Option CommentTask :=
  q.rows.find? (fun t => t.id == i)

/-!
The `LLMAdapter` of `integrations/ai/adapter.py`.  Its mutable per-user
dictionaries become an explicit state record; `time.time()` becomes an
explicit `now : Int` argument; the HTTP call inside `_call_model` becomes an
explicit `HttpOutcome` argument describing what the network produced.  The
`threading.Lock` makes `_reserve_request_and_get_history` and
`_append_history` atomic; they are modelled as atomic state transformers.
The list-of-text-segments response shape is not modelled (no claim touches
it): a successful outcome carries the extracted content string.
-/

/-- One stored `_UserMessage` turn. -/
structure Msg where
  role : String
  content : String
deriving Repr, DecidableEq

/-- The adapter's configuration after the `__init__` clamping. -/
structure AdapterConfig where
  memory_size : Nat
  rate_limit_max_requests : Nat
  rate_limit_window_seconds : Int
  max_input_chars : Nat
  max_output_chars : Nat
deriving Repr, DecidableEq

/-- `LLMAdapter.__init__`: clamps every numeric parameter. -/
def LLMAdapter.init (memory_size rate_limit_max_requests rate_limit_window_seconds
    max_input_chars max_output_chars : Int) : AdapterConfig :=
  { memory_size := (max 0 memory_size).toNat,
    rate_limit_max_requests := (max 1 rate_limit_max_requests).toNat,
    rate_limit_window_seconds := max 1 rate_limit_window_seconds,
    max_input_chars := (max 50 max_input_chars).toNat,
    max_output_chars := (max 50 max_output_chars).toNat }

/-- The adapter's mutable per-user state (`self._history`, `self._requests`);
`defaultdict` means every user key starts at the empty sequence. -/
structure AdapterState where
  history : Nat → List Msg
  requests : Nat → List Int

/-- The state both dictionaries start from. -/
def emptyAdapterState : AdapterState :=
  { history := fun _ => [], requests := fun _ => [] }

/-- `deque(maxlen=self.memory_size or None)`: the per-user history deque's
maxlen; a memory_size of 0 yields an unbounded deque. -/
def histMaxlen (cfg : AdapterConfig) : Option Nat :=
  if cfg.memory_size = 0 then none else some cfg.memory_size

/-- Appending to a `deque` with the given maxlen: beyond capacity the oldest
element is evicted from the left. -/
def appendBounded (maxlen : Option Nat) (l : List Msg) (m : Msg) : List Msg :=
  match maxlen with
  | none => l ++ [m]
  | some n => let l1 := l ++ [m]; l1.drop (l1.length - n)

/-- `LLMAdapter._reserve_request_and_get_history`: under the lock, pop expired
timestamps from the left, refuse when the rest already reaches the maximum,
otherwise record `now` and snapshot the history. -/
def _reserve_request_and_get_history (cfg : AdapterConfig) (st : AdapterState)
    (uid : Nat) (now : Int) : Option (List Msg) × AdapterState :=
  let ts := st.requests uid
  let kept := ts.dropWhile (fun t => now - t > cfg.rate_limit_window_seconds)
  if cfg.rate_limit_max_requests ≤ kept.length then
    (none, { st with requests := fun u => if u = uid then kept else st.requests u })
  else
    (some (st.history uid),
     { st with requests := fun u => if u = uid then kept ++ [now] else st.requests u })

/-- `LLMAdapter._append_history`: no-op when memory is disabled, else a bounded
deque append for that user. -/
def _append_history (cfg : AdapterConfig) (st : AdapterState) (uid : Nat)
    (role content : String) : AdapterState :=
  if cfg.memory_size = 0 then st
  else
    { st with history := fun u =>
        if u = uid then appendBounded (histMaxlen cfg) (st.history u) ⟨role, content⟩
        else st.history u }

/-- What the HTTP layer produced for one `_call_model` request. -/
inductive HttpOutcome where
  | ok (content : String)
  | httpError (code : Nat) (apiCode : Option String)
  | netError
  | timeoutErr
  | badShape
deriving Repr, DecidableEq

/-- How one `_call_model` invocation ends, as seen by `reply`'s handlers. -/
inductive CallResult where
  | userFacing (msg : String)
  | internalError
  | answer (text : String)
deriving Repr, DecidableEq

def MSG_EMPTY_INPUT : String := "Пустое сообщение."

def MSG_RATE_LIMITED : String :=
  "Слишком много запросов. Подождите немного и отправьте сообщение снова."

def MSG_BAD_KEY : String := "Ошибка LLM API: неверный ключ или нет доступа к модели."

def MSG_NO_QUOTA : String := "Квота LLM закончилась или не подключен API billing."

def MSG_UPSTREAM_LIMIT : String :=
  "Сервис LLM временно ограничивает запросы. Попробуйте чуть позже."

def MSG_UNAVAILABLE : String := "Сервис LLM временно недоступен. Попробуйте позже."

def MSG_NO_CONNECTION : String := "Нет соединения с LLM API или запрос истек по времени."

def MSG_SLOW : String := "LLM отвечает слишком долго. Попробуйте еще раз."

def MSG_GENERIC_FAIL : String := "Не удалось получить ответ от LLM. Попробуйте еще раз позже."

def MSG_EMPTY_MODEL : String := "Пустой ответ от модели."

/-- The fixed user-safe strings a failed model call can surface through `reply`. -/
def userSafeFailureMessages : List String :=
  [MSG_BAD_KEY, MSG_NO_QUOTA, MSG_UPSTREAM_LIMIT, MSG_UNAVAILABLE, MSG_NO_CONNECTION,
   MSG_SLOW, MSG_GENERIC_FAIL]

/-- `LLMAdapter._call_model`'s error mapping: HTTP status codes become fixed
`LLMUserFacingError` messages; an unhandled status or a response of an
unexpected shape escapes as a non-user-facing exception. -/
def _call_model (outcome : HttpOutcome) : CallResult :=
  match outcome with
  | .ok content =>
    .answer (if pyStrip content = "" then MSG_EMPTY_MODEL else pyStrip content)
  | .httpError code apiCode =>
    if code = 401 then .userFacing MSG_BAD_KEY
    else if code = 429 ∧ apiCode = some "insufficient_quota" then .userFacing MSG_NO_QUOTA
    else if code = 429 then .userFacing MSG_UPSTREAM_LIMIT
    else if 500 ≤ code ∧ code < 600 then .userFacing MSG_UNAVAILABLE
    else .internalError
  | .netError => .userFacing MSG_NO_CONNECTION
  | .timeoutErr => .userFacing MSG_SLOW
  | .badShape => .internalError

/-- `[:n]` slicing on a Python string: the first n characters. -/
def strTake (s : String) (n : Nat) : String :=
  String.mk (s.data.take n)

/-- `LLMAdapter.reply`: input validation and truncation, rate-limit
reservation, the model call, output truncation, history append, and the
translation of every failure into a user-safe string. -/
def reply (cfg : AdapterConfig) (st : AdapterState) (uid : Nat) (text0 : String)
    (now : Int) (outcome : HttpOutcome) : String × AdapterState :=
  let text1 := pyStrip text0
  if text1 = "" then (MSG_EMPTY_INPUT, st)
  else
    let input_truncated := cfg.max_input_chars < text1.length
    let text2 := if input_truncated then strTake text1 cfg.max_input_chars else text1
    match _reserve_request_and_get_history cfg st uid now with
    | (none, st1) => (MSG_RATE_LIMITED, st1)
    | (some _snapshot, st1) =>
      match _call_model outcome with
      | .userFacing m => (m, st1)
      | .internalError => (MSG_GENERIC_FAIL, st1)
      | .answer a =>
        let answer :=
          if cfg.max_output_chars < a.length then
            pyRstrip (strTake a cfg.max_output_chars) ++ "..."
          else a
        let st2 := _append_history cfg st1 uid "user" text2
        let st3 := _append_history cfg st2 uid "assistant" answer
        let answer1 :=
          if input_truncated then "Ваше сообщение было сокращено по длине.\n\n" ++ answer
          else answer
        (answer1, st3)

/-- One `reply` call's inputs: user key, text, clock value, network outcome. -/
structure ReplyCall where
  uid : Nat
  text : String
  now : Int
  outcome : HttpOutcome
deriving Repr, DecidableEq

/-- Run a sequence of `reply` calls, collecting the returned strings. -/
def runReplies (cfg : AdapterConfig) (st : AdapterState) :
    List ReplyCall → AdapterState × List String
  | [] => (st, [])
  | c :: cs =>
    let r := reply cfg st c.uid c.text c.now c.outcome
    let rest := runReplies cfg r.2 cs
    (rest.1, r.1 :: rest.2)

/-!
The worker's per-task state machine, `CommentsWorker._process_task`
(workers/comments_worker.py).  Its outbound collaborators — the Graph
client's `get_comment` / `reply_to_comment` and the adapter's `reply` — are
passed in as fallible functions (`Except String` carries the `str(exc)` of a
raised exception).  Execution is recorded as an effect trace: every outbound
call and every terminal database write becomes one `WorkerEffect`, and the
database writes are applied to the `Queue` with the functions above.
-/

/-- The dict returned by the Graph collaborator's `get_comment`. -/
structure GraphComment where
  id : Option String
  text : Option String
  username : Option String
deriving Repr, DecidableEq

/-- One observable step of `_process_task`. -/
inductive WorkerEffect where
  | graphGetComment (comment_id : String)
  | adapterReply (user_key : Nat) (prompt : String)
  | graphReplyToComment (comment_id : String) (message : String)
  | markDone (task_id : Nat) (reply_mode_snapshot : String)
      (reply_text : Option String) (reply_comment_id : Option String)
  | markError (task_id : Nat) (message : String)
deriving Repr, DecidableEq

/-- The worker's collaborators.  `hashFn` stands for Python's opaque string
hash used by `_safe_user_key`; `llm` is `self.llm`, absent when no adapter is
configured. -/
structure Collab where
  hashFn : String → Nat
  llm : Option (Nat → String → Except String String)
  get_comment : String → Except String GraphComment
  reply_to_comment : String → String → Except String (Option String)

/-- Python truthiness chain `a or b` on an optional string: an absent or
empty value falls through. -/
def truthyOr (a : Option String) (b : String) : String :=
  match a with
  | none => b
  | some s => if s = "" then b else s

/-- `_safe_user_key` (comments_worker.py): digit strings parse directly,
anything else is hashed into [0, 10^9). -/
def _safe_user_key (hashFn : String → Nat) (raw : String) : Nat :=
  let t := pyStrip raw
  if t ≠ "" ∧ t.data.all Char.isDigit then pyInt t
  else hashFn (if t = "" then "ig-comment" else t) % (10 ^ 9)

/-- `" ".join(s.split())`: collapse whitespace runs to single spaces. -/
def collapseWs (s : String) : String :=
  String.intercalate " "
    (((s.data.splitOnP Char.isWhitespace).filter (fun w => w ≠ [])).map String.mk)

/-- The fixed prompt template of `CommentsWorker._build_reply`. -/
def workerPrompt (username comment_text : String) : String :=
  "Ты помощник бренда и отвечаешь на комментарии в Instagram.\n" ++
  "Напиши короткий, вежливый, полезный ответ на русском языке.\n" ++
  "Без выдуманных фактов и токсичности.\n" ++
  "Если вопрос неясен, задай один уточняющий вопрос.\n\n" ++
  "Имя пользователя: " ++ (if username = "" then "неизвестно" else username) ++ "\n" ++
  "Комментарий: " ++ (if comment_text = "" then "[пусто]" else comment_text)

def FALLBACK_NO_LLM : String := "Спасибо за комментарий! Мы скоро ответим подробнее."

def FALLBACK_EMPTY_REPLY : String := "Спасибо за комментарий!"

/-- The prompt `_build_reply` builds from the comment and the task row. -/
def buildPrompt (task : CommentTask) (comment : GraphComment) : String :=
  workerPrompt (pyStrip (truthyOr comment.username (truthyOr task.commenter_username "")))
    (pyStrip (truthyOr comment.text (truthyOr task.comment_text "")))

/-- The numeric user key `_build_reply` derives from the comment id. -/
def buildUserKey (c : Collab) (task : CommentTask) (comment : GraphComment) : Nat :=
  _safe_user_key c.hashFn (truthyOr comment.id task.comment_id)

/-- `_build_reply`'s post-processing of the adapter's output: strip, collapse
whitespace, substitute the fallback when empty. -/
def postprocessReply (raw : String) : String :=
  if collapseWs (pyStrip raw) = "" then FALLBACK_EMPTY_REPLY else collapseWs (pyStrip raw)

/-- `CommentsWorker._build_reply`: fallback text without an adapter, else one
adapter call on the templated prompt, then whitespace collapse, empty-reply
fallback and a 1000-character cap.  Returns the outbound-call trace and the
result (`Except.error` when the adapter call raised). -/
def _build_reply (c : Collab) (task : CommentTask) (comment : GraphComment) :
    List WorkerEffect × Except String String :=
  match c.llm with
  | none => ([], .ok FALLBACK_NO_LLM)
  | some llm =>
    ([.adapterReply (buildUserKey c task comment) (buildPrompt task comment)],
     match llm (buildUserKey c task comment) (buildPrompt task comment) with
     | .error e => .error e
     | .ok raw => .ok (strTake (postprocessReply raw) 1000))

/-- `str(sent.get("id") or "") or None`. -/
def sentReplyId (sentId : Option String) : Option String :=
  match sentId with
  | none => none
  | some s => if s = "" then none else some s

/-- `CommentsWorker._process_task`: the per-task state machine keyed by the
current reply mode, with every exception caught at the task boundary and
converted into a `markError` terminal write. -/
def _process_task (c : Collab) (mode : String) (task : CommentTask) :
    List WorkerEffect :=
  let task_id := task.id
  let comment_id := task.comment_id
  if mode = "off" then [.markDone task_id mode none none]
  else
    match c.get_comment comment_id with
    | .error e => [.graphGetComment comment_id, .markError task_id e]
    | .ok comment =>
      let br := _build_reply c task comment
      let pre := WorkerEffect.graphGetComment comment_id :: br.1
      match br.2 with
      | .error e => pre ++ [.markError task_id e]
      | .ok reply_text =>
        if mode = "draft" then pre ++ [.markDone task_id mode (some reply_text) none]
        else
          match c.reply_to_comment comment_id reply_text with
          | .error e =>
            pre ++ [.graphReplyToComment comment_id reply_text, .markError task_id e]
          | .ok sentId =>
            pre ++ [.graphReplyToComment comment_id reply_text,
                    .markDone task_id mode (some reply_text) (sentReplyId sentId)]

/-- Apply one effect to the queue; outbound calls do not touch the database. -/
def applyEffect (now : Nat) (q : Queue) : WorkerEffect → Queue
  | .markDone tid snap rt rid => mark_comment_task_done tid snap rt rid now q
  | .markError tid msg => mark_comment_task_error tid msg now q
  | _ => q

/-- Apply an effect trace to the queue in order. -/
def applyEffects (now : Nat) (q : Queue) (es : List WorkerEffect) : Queue :=
  es.foldl (applyEffect now) q

/-- Effects that reach an external collaborator (Graph or Reply Adapter). -/
def isExternalCall : WorkerEffect → Prop
  | .graphGetComment _ => True
  | .adapterReply _ _ => True
  | .graphReplyToComment _ _ => True
  | _ => False

instance (e : WorkerEffect) : Decidable (isExternalCall e) := by
  cases e <;> simp only [isExternalCall] <;> infer_instance

/-- Terminal database writes. -/
def isTerminalWrite : WorkerEffect → Prop
  | .markDone _ _ _ _ => True
  | .markError _ _ => True
  | _ => False

instance (e : WorkerEffect) : Decidable (isTerminalWrite e) := by
  cases e <;> simp only [isTerminalWrite] <;> infer_instance

/-- Run a sequence of claim transactions, collecting each returned row. -/
def claimRun (q : Queue) : List Nat → Queue × List (Option CommentTask)
  | [] => (q, [])
  | n :: ns =>
    let r := claim_next_comment_task n q
    let rest := claimRun r.2 ns
    (rest.1, r.1 :: rest.2)

/-- How many claims of a run returned the row with id `i`. -/
def claimedCount (i : Nat) (ress : List (Option CommentTask)) : Nat :=
  ress.countP (fun r => match r with | some t => t.id == i | none => false)

/-- The last `n` elements of a list (how a bounded deque retains content). -/
def takeLast (n : Nat) (l : List Msg) : List Msg :=
  l.drop (l.length - n)

/-- Append messages one at a time through `_append_history`. -/
def appendRun (cfg : AdapterConfig) (st : AdapterState) (uid : Nat) :
    List Msg → AdapterState
  | [] => st
  | m :: ms => appendRun cfg (_append_history cfg st uid m.role m.content) uid ms

section OrderLemmas

lemma keyLe_refl (a : CommentTask) : keyLe a a :=
  Or.inr ⟨rfl, Nat.le_refl _⟩

lemma keyLt_imp_le {a b : CommentTask} (h : keyLt a b) : keyLe a b := by
  simp only [keyLt] at h; simp only [keyLe]; omega

lemma keyLe_trans {a b c : CommentTask} (h1 : keyLe a b) (h2 : keyLe b c) : keyLe a c := by
  simp only [keyLe] at h1 h2 ⊢; omega

lemma not_keyLt_imp_le {a b : CommentTask} (h : ¬ keyLt a b) : keyLe b a := by
  simp only [keyLt] at h; simp only [keyLe]; omega

lemma minByKey_spec (ts : List CommentTask) : ∀ t : CommentTask,
    (minByKey t ts = t ∨ minByKey t ts ∈ ts) ∧ keyLe (minByKey t ts) t ∧
    ∀ u ∈ ts, keyLe (minByKey t ts) u := by
  induction ts with
  | nil => intro t; exact ⟨Or.inl rfl, keyLe_refl t, by simp⟩
  | cons u us ih =>
    intro t
    simp only [minByKey]
    by_cases h : keyLt u t
    · rw [if_pos h]
      obtain ⟨hmem, hle, hall⟩ := ih u
      refine ⟨?_, keyLe_trans hle (keyLt_imp_le h), ?_⟩
      · rcases hmem with h1 | h1
        · exact Or.inr (by simp [h1])
        · exact Or.inr (List.mem_cons_of_mem _ h1)
      · intro v hv
        rcases List.mem_cons.mp hv with rfl | hv
        · exact hle
        · exact hall v hv
    · rw [if_neg h]
      obtain ⟨hmem, hle, hall⟩ := ih t
      refine ⟨?_, hle, ?_⟩
      · rcases hmem with h1 | h1
        · exact Or.inl h1
        · exact Or.inr (List.mem_cons_of_mem _ h1)
      · intro v hv
        rcases List.mem_cons.mp hv with rfl | hv
        · exact keyLe_trans hle (not_keyLt_imp_le h)
        · exact hall v hv

lemma minTodo_none_iff (rows : List CommentTask) :
    minTodo rows = none ↔ ∀ t ∈ rows, t.status ≠ "todo" := by
  rcases hfil : rows.filter (fun t => t.status == "todo") with _ | ⟨a, as⟩
  · have hnil : ∀ t ∈ rows, t.status ≠ "todo" := by
      rw [List.filter_eq_nil_iff] at hfil
      intro t ht hc
      exact hfil t ht (by simpa using hc)
    simp only [minTodo, hfil]
    exact iff_of_true trivial hnil
  · have ha : a ∈ rows.filter (fun t => t.status == "todo") := by rw [hfil]; simp
    have ha2 := List.mem_filter.mp ha
    simp only [minTodo, hfil]
    constructor
    · intro h; cases h
    · intro hall
      exact absurd (by simpa using ha2.2 : a.status = "todo") (hall a ha2.1)

lemma minTodo_some_spec {rows : List CommentTask} {m : CommentTask}
    (h : minTodo rows = some m) :
    m ∈ rows ∧ m.status = "todo" ∧ ∀ u ∈ rows, u.status = "todo" → keyLe m u := by
  unfold minTodo at h
  rcases hf : rows.filter (fun t => t.status == "todo") with _ | ⟨t, ts⟩
  · rw [hf] at h; cases h
  · rw [hf] at h
    simp only [Option.some.injEq] at h
    subst h
    obtain ⟨hmem, hle, hall⟩ := minByKey_spec ts t
    have hmf : minByKey t ts ∈ rows.filter (fun t => t.status == "todo") := by
      rw [hf]
      rcases hmem with h1 | h1
      · simp [h1]
      · exact List.mem_cons_of_mem _ h1
    have hmem2 := List.mem_filter.mp hmf
    refine ⟨hmem2.1, by simpa using hmem2.2, ?_⟩
    intro u hu hst
    have huf : u ∈ rows.filter (fun t => t.status == "todo") :=
      List.mem_filter.mpr ⟨hu, by simpa using hst⟩
    rw [hf] at huf
    rcases List.mem_cons.mp huf with rfl | huf
    · exact hle
    · exact hall u huf

end OrderLemmas

section FindLemmas

lemma find?_id_cons_pos (a : CommentTask) (l : List CommentTask) (j : Nat)
    (h : a.id = j) : (a :: l).find? (fun t => t.id == j) = some a := by
  apply List.find?_cons_of_pos
  simpa using h

lemma find?_id_cons_neg (a : CommentTask) (l : List CommentTask) (j : Nat)
    (h : a.id ≠ j) :
    (a :: l).find? (fun t => t.id == j) = l.find? (fun t => t.id == j) := by
  apply List.find?_cons_of_neg
  simpa using h

lemma find?_ite_map_eq (rows : List CommentTask) (i : Nat) (f : CommentTask → CommentTask)
    (hf : ∀ t : CommentTask, t.id = i → (f t).id = i) :
    (rows.map (fun t => if t.id = i then f t else t)).find? (fun t => t.id == i)
      = (rows.find? (fun t => t.id == i)).map f := by
  induction rows with
  | nil => simp
  | cons u us ih =>
    by_cases h : u.id = i
    · rw [List.map_cons, if_pos h, find?_id_cons_pos _ _ _ (hf u h),
          find?_id_cons_pos _ _ _ h]
      simp
    · rw [List.map_cons, if_neg h, find?_id_cons_neg _ _ _ h,
          find?_id_cons_neg _ _ _ h]
      exact ih

lemma find?_ite_map_ne (rows : List CommentTask) (i j : Nat) (f : CommentTask → CommentTask)
    (hf : ∀ t : CommentTask, t.id = i → (f t).id = i) (hne : j ≠ i) :
    (rows.map (fun t => if t.id = i then f t else t)).find? (fun t => t.id == j)
      = rows.find? (fun t => t.id == j) := by
  induction rows with
  | nil => simp
  | cons u us ih =>
    by_cases h : u.id = i
    · have h1 : (f u).id ≠ j := by
        intro hc
        exact hne (by rw [← hc]; exact hf u h)
      have h2 : u.id ≠ j := by
        intro hc
        exact hne (by rw [← hc]; exact h)
      rw [List.map_cons, if_pos h, find?_id_cons_neg _ _ _ h1,
          find?_id_cons_neg _ _ _ h2]
      exact ih
    · by_cases h2 : u.id = j
      · rw [List.map_cons, if_neg h, find?_id_cons_pos _ _ _ h2,
            find?_id_cons_pos _ _ _ h2]
      · rw [List.map_cons, if_neg h, find?_id_cons_neg _ _ _ h2,
            find?_id_cons_neg _ _ _ h2]
        exact ih

lemma map_id_ite_map (rows : List CommentTask) (i : Nat) (f : CommentTask → CommentTask)
    (hf : ∀ t : CommentTask, t.id = i → (f t).id = i) :
    (rows.map (fun t => if t.id = i then f t else t)).map (fun t => t.id)
      = rows.map (fun t => t.id) := by
  induction rows with
  | nil => simp
  | cons u us ih =>
    simp only [List.map_cons]
    by_cases h : u.id = i
    · rw [if_pos h, ih]
      congr 1
      rw [hf u h, h]
    · rw [if_neg h, ih]

lemma find?_eq_of_mem_nodup {rows : List CommentTask} {m : CommentTask}
    (hN : (rows.map (fun t => t.id)).Nodup) (hm : m ∈ rows) :
    rows.find? (fun t => t.id == m.id) = some m := by
  induction rows with
  | nil => cases hm
  | cons u us ih =>
    simp only [List.map_cons, List.nodup_cons] at hN
    rcases List.mem_cons.mp hm with rfl | hm2
    · exact find?_id_cons_pos _ _ _ rfl
    · have hne : u.id ≠ m.id := by
        intro hc
        exact hN.1 (hc ▸ List.mem_map_of_mem (fun t => t.id) hm2)
      rw [find?_id_cons_neg _ _ _ hne]
      exact ih hN.2 hm2

end FindLemmas

section ClaimLemmas

lemma claim_some_eq {q : Queue} {m : CommentTask} (hm : minTodo q.rows = some m)
    (now : Nat) :
    claim_next_comment_task now q =
      (some (claimed_update m now),
       Queue.mk (q.rows.map (fun u => if u.id = m.id then claimed_update m now else u))
         q.next_id) := by
  unfold claim_next_comment_task
  rw [hm]

lemma claim_none_eq {q : Queue} (hm : minTodo q.rows = none) (now : Nat) :
    claim_next_comment_task now q = (none, q) := by
  unfold claim_next_comment_task
  rw [hm]

lemma claimRun_nil (q : Queue) : claimRun q [] = (q, []) := rfl

lemma claimRun_cons (q : Queue) (n : Nat) (ns : List Nat) :
    claimRun q (n :: ns) =
      ((claimRun (claim_next_comment_task n q).2 ns).1,
       (claim_next_comment_task n q).1 :: (claimRun (claim_next_comment_task n q).2 ns).2) :=
  rfl

lemma claimedCount_nil (i : Nat) : claimedCount i [] = 0 := rfl

lemma claimedCount_cons_none (i : Nat) (rs : List (Option CommentTask)) :
    claimedCount i (none :: rs) = claimedCount i rs := by
  simp [claimedCount, List.countP_cons]

lemma claimedCount_cons_some_eq (i : Nat) (m : CommentTask) (hm : m.id = i)
    (rs : List (Option CommentTask)) :
    claimedCount i (some m :: rs) = claimedCount i rs + 1 := by
  simp [claimedCount, List.countP_cons, hm]

lemma claimedCount_cons_some_ne (i : Nat) (m : CommentTask) (hm : m.id ≠ i)
    (rs : List (Option CommentTask)) :
    claimedCount i (some m :: rs) = claimedCount i rs := by
  simp [claimedCount, List.countP_cons, hm]

lemma claim_step (q : Queue) (now i : Nat) (r : CommentTask)
    (hN : (q.rows.map (fun t => t.id)).Nodup) (hf : findRow i q = some r) :
    ((claim_next_comment_task now q).2.rows.map (fun t => t.id)
        = q.rows.map (fun t => t.id)) ∧
    ((claim_next_comment_task now q).1 = none → (claim_next_comment_task now q).2 = q) ∧
    (∀ m, (claim_next_comment_task now q).1 = some m →
      (m.id = i → findRow i (claim_next_comment_task now q).2 = some m ∧
        m = claimed_update r now) ∧
      (m.id ≠ i → findRow i (claim_next_comment_task now q).2 = some r)) := by
  rcases hmt : minTodo q.rows with _ | m0
  · rw [claim_none_eq hmt now]
    exact ⟨rfl, fun _ => rfl, fun m hm => Option.noConfusion hm⟩
  · have heq := claim_some_eq hmt now
    rw [heq]
    dsimp only
    obtain ⟨hmem, _, _⟩ := minTodo_some_spec hmt
    refine ⟨map_id_ite_map _ _ _ (fun t _ => rfl), fun h => Option.noConfusion h, ?_⟩
    intro m hm
    simp only [Option.some.injEq] at hm
    subst hm
    constructor
    · intro hid
      have hid0 : m0.id = i := hid
      have hr0 : findRow m0.id q = some m0 := find?_eq_of_mem_nodup hN hmem
      rw [hid0] at hr0
      have hrm : r = m0 := by
        rw [hf] at hr0
        exact Option.some.inj hr0
      subst hrm
      constructor
      · show ((q.rows.map (fun u => if u.id = r.id then claimed_update r now else u)).find?
          (fun t => t.id == i)) = some (claimed_update r now)
        rw [← hid0]
        rw [find?_ite_map_eq q.rows r.id (fun _ => claimed_update r now) (fun t _ => rfl)]
        rw [← hid0] at hf
        have hf2 : q.rows.find? (fun t => t.id == r.id) = some r := hf
        rw [hf2]
        rfl
      · rfl
    · intro hne
      show ((q.rows.map (fun u => if u.id = m0.id then claimed_update m0 now else u)).find?
        (fun t => t.id == i)) = some r
      rw [find?_ite_map_ne q.rows m0.id i (fun _ => claimed_update m0 now) (fun t _ => rfl)
        (fun hc => hne (hc ▸ rfl))]
      exact hf

lemma claimRun_spec (nows : List Nat) : ∀ (q : Queue) (i : Nat) (r : CommentTask),
    (q.rows.map (fun t => t.id)).Nodup → findRow i q = some r →
    ((claimRun q nows).1.rows.map (fun t => t.id) = q.rows.map (fun t => t.id)) ∧
    ∃ rr, findRow i (claimRun q nows).1 = some rr ∧
      rr.attempts = r.attempts + claimedCount i (claimRun q nows).2 ∧
      (claimedCount i (claimRun q nows).2 = 0 → rr = r) ∧
      (0 < claimedCount i (claimRun q nows).2 → rr.status = "processing") := by
  induction nows with
  | nil =>
    intro q i r _ hf
    rw [claimRun_nil]
    exact ⟨rfl, r, hf, by rw [claimedCount_nil]; omega, fun _ => rfl,
      by rw [claimedCount_nil]; omega⟩
  | cons n ns ih =>
    intro q i r hN hf
    obtain ⟨hids, hnone, hsome⟩ := claim_step q n i r hN hf
    have hN1 : ((claim_next_comment_task n q).2.rows.map (fun t => t.id)).Nodup := by
      rw [hids]; exact hN
    rw [claimRun_cons]
    dsimp only
    rcases hres : (claim_next_comment_task n q).1 with _ | m
    · have hq1 : (claim_next_comment_task n q).2 = q := hnone hres
      rw [hq1]
      obtain ⟨hids2, rr, hfind, hatt, hzero, hpos⟩ := ih q i r hN hf
      exact ⟨hids2, rr, hfind,
        by rw [claimedCount_cons_none]; exact hatt,
        by rw [claimedCount_cons_none]; exact hzero,
        by rw [claimedCount_cons_none]; exact hpos⟩
    · by_cases hmi : m.id = i
      · obtain ⟨hfind1, hm⟩ := (hsome m hres).1 hmi
        have hma : m.attempts = r.attempts + 1 := by rw [hm]; rfl
        obtain ⟨hids2, rr, hfind, hatt, hzero, hpos⟩ :=
          ih (claim_next_comment_task n q).2 i m hN1 hfind1
        refine ⟨hids2.trans hids, rr, hfind, ?_, ?_, ?_⟩
        · rw [claimedCount_cons_some_eq i m hmi, hatt, hma]
          omega
        · rw [claimedCount_cons_some_eq i m hmi]
          omega
        · rw [claimedCount_cons_some_eq i m hmi]
          intro _
          by_cases hc : claimedCount i (claimRun (claim_next_comment_task n q).2 ns).2 = 0
          · rw [hzero hc, hm]; rfl
          · exact hpos (by omega)
      · have hfind1 := (hsome m hres).2 hmi
        obtain ⟨hids2, rr, hfind, hatt, hzero, hpos⟩ :=
          ih (claim_next_comment_task n q).2 i r hN1 hfind1
        exact ⟨hids2.trans hids, rr, hfind,
          by rw [claimedCount_cons_some_ne i m hmi]; exact hatt,
          by rw [claimedCount_cons_some_ne i m hmi]; exact hzero,
          by rw [claimedCount_cons_some_ne i m hmi]; exact hpos⟩

lemma claim_returns_todo {q : Queue} {now : Nat} {m : CommentTask}
    (hres : (claim_next_comment_task now q).1 = some m) :
    ∃ m0 ∈ q.rows, m0.status = "todo" ∧ m = claimed_update m0 now := by
  rcases hmt : minTodo q.rows with _ | m0
  · rw [claim_none_eq hmt now] at hres
    cases hres
  · rw [claim_some_eq hmt now] at hres
    obtain ⟨hmem, hst, _⟩ := minTodo_some_spec hmt
    exact ⟨m0, hmem, hst, (Option.some.inj hres).symm⟩

lemma claimRun_at_most_once (nows : List Nat) : ∀ (q : Queue) (i : Nat) (r : CommentTask),
    (q.rows.map (fun t => t.id)).Nodup → findRow i q = some r →
    claimedCount i (claimRun q nows).2 ≤ (if r.status = "todo" then 1 else 0) := by
  induction nows with
  | nil =>
    intro q i r _ _
    rw [claimRun_nil, claimedCount_nil]
    exact Nat.zero_le _
  | cons n ns ih =>
    intro q i r hN hf
    obtain ⟨hids, hnone, hsome⟩ := claim_step q n i r hN hf
    have hN1 : ((claim_next_comment_task n q).2.rows.map (fun t => t.id)).Nodup := by
      rw [hids]; exact hN
    rw [claimRun_cons]
    dsimp only
    rcases hres : (claim_next_comment_task n q).1 with _ | m
    · have hq1 : (claim_next_comment_task n q).2 = q := hnone hres
      rw [hq1, claimedCount_cons_none]
      exact ih q i r hN hf
    · by_cases hmi : m.id = i
      · obtain ⟨hfind1, hm⟩ := (hsome m hres).1 hmi
        obtain ⟨m0, hmem0, hst0, hm0⟩ := claim_returns_todo hres
        have hm0id : m0.id = i := by rw [hm0] at hmi; exact hmi
        have hr0 : findRow m0.id q = some m0 := find?_eq_of_mem_nodup hN hmem0
        rw [hm0id, hf] at hr0
        have hrtodo : r.status = "todo" := by rw [Option.some.inj hr0]; exact hst0
        have hmst : m.status = "processing" := by rw [hm]; rfl
        have htail := ih (claim_next_comment_task n q).2 i m hN1 hfind1
        rw [hmst, if_neg (by decide)] at htail
        rw [if_pos hrtodo, claimedCount_cons_some_eq i m hmi]
        omega
      · have hfind1 := (hsome m hres).2 hmi
        rw [claimedCount_cons_some_ne i m hmi]
        exact ih (claim_next_comment_task n q).2 i r hN1 hfind1

end ClaimLemmas

section MarkLemmas

lemma findRow_mark_done (q : Queue) (tid : Nat) (snap : String) (rt rid : Option String)
    (now : Nat) :
    findRow tid (mark_comment_task_done tid snap rt rid now q)
      = (findRow tid q).map (doneRowUpdate snap rt rid now) := by
  show ((q.rows.map (fun t => if t.id = tid then doneRowUpdate snap rt rid now t else t)).find?
    (fun t => t.id == tid)) = _
  exact find?_ite_map_eq q.rows tid (doneRowUpdate snap rt rid now) (fun t ht => ht)

lemma findRow_mark_error (q : Queue) (tid : Nat) (msg : String) (now : Nat) :
    findRow tid (mark_comment_task_error tid msg now q)
      = (findRow tid q).map (errorRowUpdate msg now) := by
  show ((q.rows.map (fun t => if t.id = tid then errorRowUpdate msg now t else t)).find?
    (fun t => t.id == tid)) = _
  exact find?_ite_map_eq q.rows tid (errorRowUpdate msg now) (fun t ht => ht)

end MarkLemmas

/-- A plain row used to instantiate theorems at concrete queues. -/
def sampleTask (i : Nat) (cid st : String) (created : Nat) : CommentTask :=
  { id := i, comment_id := cid, media_id := none, parent_id := none,
    commenter_username := none, comment_text := none, source_event_id := none,
    status := st, attempts := 0, last_error := none, reply_mode_snapshot := none,
    reply_text := none, reply_comment_id := none, processed_at := none,
    created_at := created, updated_at := created }

/-- A concrete queue with one `todo` row (id 1) and one `done` row (id 2). -/
def sampleQueue : Queue :=
  { rows := [sampleTask 1 "c1" "todo" 5, sampleTask 2 "c2" "done" 3], next_id := 3 }

/-- C1: a claim call on a queue with a `todo` row selects the minimal `todo`
row under (created_at asc, id asc), flips it to `processing`, increments its
attempts by one, stamps `updated_at`, and returns that full row, leaving every
other row unchanged; with no `todo` row it returns none and changes nothing;
and over any sequence of claims a row's attempts grow by exactly the number of
claims that returned it, with status `processing` once it has been claimed. -/
theorem claim_next_correct (q : Queue) (now : Nat)
    (hN : (q.rows.map (fun t => t.id)).Nodup) :
    ((∀ t ∈ q.rows, t.status ≠ "todo") → claim_next_comment_task now q = (none, q)) ∧
    ((∃ t ∈ q.rows, t.status = "todo") →
      ∃ m ∈ q.rows, m.status = "todo" ∧
        (∀ u ∈ q.rows, u.status = "todo" → keyLe m u) ∧
        (claim_next_comment_task now q).1 = some (claimed_update m now) ∧
        (claimed_update m now).status = "processing" ∧
        (claimed_update m now).attempts = m.attempts + 1 ∧
        (claimed_update m now).updated_at = now ∧
        findRow m.id (claim_next_comment_task now q).2 = some (claimed_update m now) ∧
        (∀ j, j ≠ m.id → findRow j (claim_next_comment_task now q).2 = findRow j q)) ∧
    (∀ (nows : List Nat) (i : Nat) (r : CommentTask), findRow i q = some r →
      ∃ rr, findRow i (claimRun q nows).1 = some rr ∧
        rr.attempts = r.attempts + claimedCount i (claimRun q nows).2 ∧
        (0 < claimedCount i (claimRun q nows).2 → rr.status = "processing")) := by
  refine ⟨?_, ?_, ?_⟩
  · intro hall
    exact claim_none_eq ((minTodo_none_iff q.rows).mpr hall) now
  · rcases hmt : minTodo q.rows with _ | m
    · rintro ⟨t, ht, hst⟩
      exact absurd hst ((minTodo_none_iff q.rows).mp hmt t ht)
    · intro _
      obtain ⟨hmem, hst, hmin⟩ := minTodo_some_spec hmt
      refine ⟨m, hmem, hst, hmin, ?_, rfl, rfl, rfl, ?_, ?_⟩
      · rw [claim_some_eq hmt now]
      · rw [claim_some_eq hmt now]
        show ((q.rows.map (fun u => if u.id = m.id then claimed_update m now else u)).find?
          (fun t => t.id == m.id)) = some (claimed_update m now)
        rw [find?_ite_map_eq q.rows m.id (fun _ => claimed_update m now) (fun t _ => rfl)]
        have hf2 : q.rows.find? (fun t => t.id == m.id) = some m :=
          find?_eq_of_mem_nodup hN hmem
        rw [hf2]
        rfl
      · intro j hj
        rw [claim_some_eq hmt now]
        show ((q.rows.map (fun u => if u.id = m.id then claimed_update m now else u)).find?
          (fun t => t.id == j)) = findRow j q
        exact find?_ite_map_ne q.rows m.id j (fun _ => claimed_update m now)
          (fun t _ => rfl) hj
  · intro nows i r hf
    obtain ⟨_, rr, hfind, hatt, _, hpos⟩ := claimRun_spec nows q i r hN hf
    exact ⟨rr, hfind, hatt, hpos⟩

/-- Witness for C1 at a concrete queue: the claim returns its unique `todo` row. -/
theorem claim_next_correct_witness :
    ∃ m ∈ sampleQueue.rows, m.status = "todo" ∧
      (claim_next_comment_task 9 sampleQueue).1 = some (claimed_update m 9) := by
  obtain ⟨m, hmem, hst, _, h1, _⟩ :=
    (claim_next_correct sampleQueue 9 (by decide)).2.1
      ⟨sampleTask 1 "c1" "todo" 5, by decide, by decide⟩
  exact ⟨m, hmem, hst, h1⟩

/-- C2: claim transactions are atomic thanks to their exclusive row lock with
locked-row skipping, so N concurrent callers serialize into some order of
atomic claims; over any such serialized run, each row is delivered to at most
one caller (`claimedCount ≤ 1`); and in the two-caller instance against a
queue whose only `todo` row is `r`, whichever order they run in, the first
returns `r` and the second returns none and leaves the queue unchanged. -/
theorem claim_exclusive (q : Queue) (now1 now2 : Nat) (r : CommentTask)
    (hr : r ∈ q.rows) (hst : r.status = "todo")
    (huniq : ∀ u ∈ q.rows, u.status = "todo" → u = r) :
    (∀ (q1 : Queue) (nows : List Nat) (i : Nat) (r1 : CommentTask),
       (q1.rows.map (fun t => t.id)).Nodup → findRow i q1 = some r1 →
       claimedCount i (claimRun q1 nows).2 ≤ 1) ∧
    (claim_next_comment_task now1 q).1 = some (claimed_update r now1) ∧
    (claim_next_comment_task now2 (claim_next_comment_task now1 q).2).1 = none ∧
    (claim_next_comment_task now2 (claim_next_comment_task now1 q).2).2
      = (claim_next_comment_task now1 q).2 := by
  have hgen : ∀ (q1 : Queue) (nows : List Nat) (i : Nat) (r1 : CommentTask),
      (q1.rows.map (fun t => t.id)).Nodup → findRow i q1 = some r1 →
      claimedCount i (claimRun q1 nows).2 ≤ 1 := by
    intro q1 nows i r1 hN1 hf1
    have h := claimRun_at_most_once nows q1 i r1 hN1 hf1
    by_cases ht : r1.status = "todo"
    · rwa [if_pos ht] at h
    · rw [if_neg ht] at h
      omega
  refine ⟨hgen, ?_⟩
  rcases hmt : minTodo q.rows with _ | m
  · exact absurd hst ((minTodo_none_iff q.rows).mp hmt r hr)
  · obtain ⟨hmem, hmst, _⟩ := minTodo_some_spec hmt
    have hmr : m = r := huniq m hmem hmst
    subst hmr
    have hnone : ∀ t ∈ (claim_next_comment_task now1 q).2.rows, t.status ≠ "todo" := by
      rw [claim_some_eq hmt now1]
      intro t ht
      obtain ⟨u, hu, hut⟩ := List.mem_map.mp ht
      by_cases hui : u.id = m.id
      · rw [← hut, if_pos hui]
        intro hc
        have hc2 : "processing" = "todo" := hc
        exact absurd hc2 (by decide)
      · rw [← hut, if_neg hui]
        intro hc
        exact hui (by rw [huniq u hu hc])
    have h2 := claim_none_eq ((minTodo_none_iff _).mpr hnone) now2
    refine ⟨?_, ?_, ?_⟩
    · rw [claim_some_eq hmt now1]
    · rw [h2]
    · rw [h2]

/-- Witness for C2 at a concrete queue with exactly one `todo` row, including
the at-most-once bound over a concrete three-claim run. -/
theorem claim_exclusive_witness :
    (claim_next_comment_task 7 sampleQueue).1
        = some (claimed_update (sampleTask 1 "c1" "todo" 5) 7) ∧
    (claim_next_comment_task 8 (claim_next_comment_task 7 sampleQueue).2).1 = none ∧
    claimedCount 1 (claimRun sampleQueue [7, 8, 9]).2 ≤ 1 := by
  obtain ⟨hgen, h1, h2, _⟩ :=
    claim_exclusive sampleQueue 7 8 (sampleTask 1 "c1" "todo" 5)
      (by decide) (by decide) (by decide)
  exact ⟨h1, h2, hgen sampleQueue [7, 8, 9] 1 (sampleTask 1 "c1" "todo" 5)
    (by decide) (by decide)⟩

lemma normalize_cases (s : String) :
    _normalize_reply_mode s = "off" ∨ _normalize_reply_mode s = "draft" ∨
    _normalize_reply_mode s = "auto" := by
  unfold _normalize_reply_mode
  by_cases h : pyLower (pyStrip s) = "off" ∨ pyLower (pyStrip s) = "draft" ∨
      pyLower (pyStrip s) = "auto"
  · rw [if_pos h]; exact h
  · rw [if_neg h]; right; left; rfl

lemma normalize_idem (s : String) :
    _normalize_reply_mode (_normalize_reply_mode s) = _normalize_reply_mode s := by
  rcases normalize_cases s with h | h | h <;> rw [h] <;> decide

lemma normalize_ne_empty (s : String) : _normalize_reply_mode s ≠ "" := by
  rcases normalize_cases s with h | h | h <;> rw [h] <;> decide

section EnqueueLemmas

lemma enqueue_news (tasks : List CandidateTask) :
    ∀ (q : Queue) (sid : Option Nat) (now : Nat),
    ∃ news : List CommentTask,
      (enqueue_comment_tasks tasks sid now q).2.rows = q.rows ++ news ∧
      (enqueue_comment_tasks tasks sid now q).1 = news.length ∧
      (∀ r ∈ news, r.status = "todo" ∧ r.attempts = 0 ∧ r.comment_id ≠ "" ∧
        (∃ c ∈ tasks, r.comment_id = effectiveCid c) ∧
        ∀ r0 ∈ q.rows, r0.comment_id ≠ r.comment_id) ∧
      (news.map (fun r => r.comment_id)).Nodup ∧
      (∀ c ∈ tasks, effectiveCid c ≠ "" →
        ∃ r ∈ (enqueue_comment_tasks tasks sid now q).2.rows,
          r.comment_id = effectiveCid c) := by
  induction tasks with
  | nil =>
    intro q sid now
    exact ⟨[], by simp [enqueue_comment_tasks], rfl, by simp, by simp, by simp⟩
  | cons c rest ih =>
    intro q sid now
    by_cases hcid : effectiveCid c = ""
    · have hstep : enqueue_comment_tasks (c :: rest) sid now q
          = enqueue_comment_tasks rest sid now q := by
        simp only [enqueue_comment_tasks]
        rw [if_pos hcid]
      obtain ⟨news, h1, h2, h3, h4, h5⟩ := ih q sid now
      rw [hstep]
      refine ⟨news, h1, h2, ?_, h4, ?_⟩
      · intro r hr
        obtain ⟨a1, a2, a3, ⟨c1, hc1, hcc⟩, a5⟩ := h3 r hr
        exact ⟨a1, a2, a3, ⟨c1, List.mem_cons_of_mem _ hc1, hcc⟩, a5⟩
      · intro c1 hc1 hne
        rcases List.mem_cons.mp hc1 with rfl | hc2
        · exact absurd hcid hne
        · exact h5 c1 hc2 hne
    · by_cases hcol : q.rows.any (fun r => r.comment_id == effectiveCid c) = true
      · have hstep : enqueue_comment_tasks (c :: rest) sid now q
            = enqueue_comment_tasks rest sid now q := by
          simp only [enqueue_comment_tasks]
          rw [if_neg hcid, if_pos hcol]
        obtain ⟨news, h1, h2, h3, h4, h5⟩ := ih q sid now
        rw [hstep]
        refine ⟨news, h1, h2, ?_, h4, ?_⟩
        · intro r hr
          obtain ⟨a1, a2, a3, ⟨c1, hc1, hcc⟩, a5⟩ := h3 r hr
          exact ⟨a1, a2, a3, ⟨c1, List.mem_cons_of_mem _ hc1, hcc⟩, a5⟩
        · intro c1 hc1 hne
          rcases List.mem_cons.mp hc1 with rfl | hc2
          · obtain ⟨r0, hr0, hp⟩ := List.any_eq_true.mp hcol
            exact ⟨r0, by rw [h1]; exact List.mem_append_left _ hr0, by simpa using hp⟩
          · exact h5 c1 hc2 hne
      · have hnotin : ∀ r0 ∈ q.rows, r0.comment_id ≠ effectiveCid c := by
          intro r0 h0 hc
          exact hcol (List.any_eq_true.mpr ⟨r0, h0, by simpa using hc⟩)
        have hstep : enqueue_comment_tasks (c :: rest) sid now q
            = ((enqueue_comment_tasks rest sid now
                (Queue.mk (q.rows ++ [newTaskRow c (effectiveCid c) sid q.next_id now])
                  (q.next_id + 1))).1 + 1,
               (enqueue_comment_tasks rest sid now
                (Queue.mk (q.rows ++ [newTaskRow c (effectiveCid c) sid q.next_id now])
                  (q.next_id + 1))).2) := by
          simp only [enqueue_comment_tasks]
          rw [if_neg hcid, if_neg hcol]
        obtain ⟨news, h1, h2, h3, h4, h5⟩ :=
          ih (Queue.mk (q.rows ++ [newTaskRow c (effectiveCid c) sid q.next_id now])
            (q.next_id + 1)) sid now
        rw [hstep]
        refine ⟨newTaskRow c (effectiveCid c) sid q.next_id now :: news, ?_, ?_, ?_, ?_, ?_⟩
        · rw [h1]
          simp
        · simp [h2]
        · intro r hr
          rcases List.mem_cons.mp hr with rfl | hr2
          · exact ⟨rfl, rfl, hcid, ⟨c, List.mem_cons_self _ _, rfl⟩,
              fun r0 h0 => hnotin r0 h0⟩
          · obtain ⟨a1, a2, a3, ⟨c1, hc1, hcc⟩, a5⟩ := h3 r hr2
            refine ⟨a1, a2, a3, ⟨c1, List.mem_cons_of_mem _ hc1, hcc⟩, ?_⟩
            intro r0 h0
            exact a5 r0 (List.mem_append_left _ h0)
        · rw [List.map_cons, List.nodup_cons]
          refine ⟨?_, h4⟩
          intro hmem
          obtain ⟨r, hr, hrc⟩ := List.mem_map.mp hmem
          obtain ⟨_, _, _, _, a5⟩ := h3 r hr
          exact a5 (newTaskRow c (effectiveCid c) sid q.next_id now)
            (List.mem_append_right _ (List.mem_singleton_self _)) hrc.symm
        · intro c1 hc1 hne
          rcases List.mem_cons.mp hc1 with rfl | hc2
          · refine ⟨newTaskRow c1 (effectiveCid c1) sid q.next_id now, ?_, rfl⟩
            rw [h1]
            exact List.mem_append_left _
              (List.mem_append_right _ (List.mem_singleton_self _))
          · exact h5 c1 hc2 hne

lemma enqueue_all_present (tasks : List CandidateTask) :
    ∀ (q : Queue) (sid : Option Nat) (now : Nat),
    (∀ c ∈ tasks, effectiveCid c ≠ "" → ∃ r ∈ q.rows, r.comment_id = effectiveCid c) →
    enqueue_comment_tasks tasks sid now q = (0, q) := by
  induction tasks with
  | nil => intro q sid now _; rfl
  | cons c rest ih =>
    intro q sid now hall
    by_cases hcid : effectiveCid c = ""
    · simp only [enqueue_comment_tasks]
      rw [if_pos hcid]
      exact ih q sid now (fun c1 hc1 => hall c1 (List.mem_cons_of_mem _ hc1))
    · obtain ⟨r0, hr0, hrc⟩ := hall c (List.mem_cons_self _ _) hcid
      have hany : q.rows.any (fun r => r.comment_id == effectiveCid c) = true :=
        List.any_eq_true.mpr ⟨r0, hr0, by simpa using hrc⟩
      simp only [enqueue_comment_tasks]
      rw [if_neg hcid, if_pos hany]
      exact ih q sid now (fun c1 hc1 => hall c1 (List.mem_cons_of_mem _ hc1))

end EnqueueLemmas

/-- C3: an enqueue call appends exactly the candidates with a non-empty
stripped comment_id not already present (intra-batch duplicates included,
since each insert is visible to the next candidate's conflict check), each as
a fresh `todo` row; the returned count equals the number of rows actually
inserted; and re-running the same enqueue against the resulting queue inserts
nothing and reports zero. -/
theorem enqueue_comment_tasks_correct (tasks : List CandidateTask) (q : Queue)
    (sid : Option Nat) (now : Nat) :
    ∃ news : List CommentTask,
      (enqueue_comment_tasks tasks sid now q).2.rows = q.rows ++ news ∧
      (enqueue_comment_tasks tasks sid now q).1 = news.length ∧
      (∀ r ∈ news, r.status = "todo" ∧ r.attempts = 0 ∧ r.comment_id ≠ "" ∧
        (∃ c ∈ tasks, r.comment_id = effectiveCid c) ∧
        ∀ r0 ∈ q.rows, r0.comment_id ≠ r.comment_id) ∧
      (news.map (fun r => r.comment_id)).Nodup ∧
      (∀ c ∈ tasks, effectiveCid c ≠ "" →
        ∃ r ∈ (enqueue_comment_tasks tasks sid now q).2.rows,
          r.comment_id = effectiveCid c) ∧
      (∀ c ∈ tasks, effectiveCid c ≠ "" →
        (∀ r0 ∈ q.rows, r0.comment_id ≠ effectiveCid c) →
        ∃ r ∈ news, r.comment_id = effectiveCid c) ∧
      (∀ (sid2 : Option Nat) (now2 : Nat),
        enqueue_comment_tasks tasks sid2 now2 (enqueue_comment_tasks tasks sid now q).2
          = (0, (enqueue_comment_tasks tasks sid now q).2)) := by
  obtain ⟨news, h1, h2, h3, h4, h5⟩ := enqueue_news tasks q sid now
  refine ⟨news, h1, h2, h3, h4, h5, ?_, ?_⟩
  · intro c hc hne hfresh
    obtain ⟨r, hr, hrc⟩ := h5 c hc hne
    rw [h1] at hr
    rcases List.mem_append.mp hr with hold | hnew
    · exact absurd hrc (hfresh r hold)
    · exact ⟨r, hnew, hrc⟩
  · intro sid2 now2
    exact enqueue_all_present tasks (enqueue_comment_tasks tasks sid now q).2 sid2 now2
      (fun c hc hne => h5 c hc hne)

/-- An initially empty queue. -/
def emptyQueue : Queue := { rows := [], next_id := 1 }

/-- A concrete enqueue batch: a duplicate comment_id and a blank comment_id. -/
def sampleBatch : List CandidateTask :=
  [⟨some "123", none, none, none, none⟩,
   ⟨some "123", none, none, none, none⟩,
   ⟨some "  ", none, none, none, none⟩]

/-- Witness for C3: re-enqueueing the same batch inserts zero rows. -/
theorem enqueue_comment_tasks_correct_witness :
    enqueue_comment_tasks sampleBatch none 5
        (enqueue_comment_tasks sampleBatch none 4 emptyQueue).2
      = (0, (enqueue_comment_tasks sampleBatch none 4 emptyQueue).2) := by
  obtain ⟨_, _, _, _, _, _, _, hidem⟩ :=
    enqueue_comment_tasks_correct sampleBatch emptyQueue none 4
  exact hidem none 5

/-- C6: reply-mode normalization maps any string whose trimmed, lowercased
form is not `off`/`draft`/`auto` to `draft` and maps the three recognized
forms to their canonical selves; both the read and the write operation on the
singleton setting apply it. -/
theorem reply_mode_normalization :
    (∀ s : String, pyLower (pyStrip s) ≠ "off" → pyLower (pyStrip s) ≠ "draft" →
       pyLower (pyStrip s) ≠ "auto" → _normalize_reply_mode s = "draft") ∧
    (∀ s : String, (pyLower (pyStrip s) = "off" ∨ pyLower (pyStrip s) = "draft" ∨
       pyLower (pyStrip s) = "auto") → _normalize_reply_mode s = pyLower (pyStrip s)) ∧
    (∀ s : String, _normalize_reply_mode s = "off" ∨ _normalize_reply_mode s = "draft" ∨
       _normalize_reply_mode s = "auto") ∧
    (∀ env v, v ≠ "" → get_comment_reply_mode env (some v) = _normalize_reply_mode v) ∧
    (∀ env, get_comment_reply_mode env none = _normalize_reply_mode env) ∧
    (∀ m, set_comment_reply_mode m
      = (_normalize_reply_mode m, some (_normalize_reply_mode m))) ∧
    (∀ m env, get_comment_reply_mode env (set_comment_reply_mode m).2
      = _normalize_reply_mode m) := by
  refine ⟨?_, ?_, normalize_cases, ?_, fun _ => rfl, fun _ => rfl, ?_⟩
  · intro s h1 h2 h3
    unfold _normalize_reply_mode
    rw [if_neg]
    rintro (h | h | h)
    · exact h1 h
    · exact h2 h
    · exact h3 h
  · intro s h
    unfold _normalize_reply_mode
    rw [if_pos h]
  · intro env v hv
    show (if v = "" then _ else _normalize_reply_mode v) = _normalize_reply_mode v
    rw [if_neg hv]
  · intro m env
    show get_comment_reply_mode env (some (_normalize_reply_mode m)) = _normalize_reply_mode m
    show (if _normalize_reply_mode m = "" then _ else
      _normalize_reply_mode (_normalize_reply_mode m)) = _normalize_reply_mode m
    rw [if_neg (normalize_ne_empty m), normalize_idem]

/-- Witness for C6 at concrete strings. -/
theorem reply_mode_normalization_witness :
    _normalize_reply_mode " OFF " = "off" ∧ _normalize_reply_mode "bogus" = "draft" := by
  refine ⟨?_, ?_⟩
  · rw [reply_mode_normalization.2.1 " OFF " (by decide)]
    decide
  · exact reply_mode_normalization.1 "bogus" (by decide) (by decide) (by decide)

/-- C8: `mark_comment_task_done` followed by `mark_comment_task_error` on the
same id leaves the row with status `error` (last writer wins), even though the
row had already reached the terminal state `done`. -/
theorem complete_then_fail (q : Queue) (tid : Nat) (r : CommentTask) (snap : String)
    (rt rid : Option String) (e : String) (now1 now2 : Nat)
    (hf : findRow tid q = some r) :
    (∃ r1, findRow tid (mark_comment_task_done tid snap rt rid now1 q) = some r1 ∧
       r1.status = "done") ∧
    (∃ r2, findRow tid (mark_comment_task_error tid e now2
         (mark_comment_task_done tid snap rt rid now1 q)) = some r2 ∧
       r2.status = "error" ∧
       r2.last_error = some (_truncate_error (if e = "" then "Unknown error" else e))) := by
  constructor
  · refine ⟨doneRowUpdate snap rt rid now1 r, ?_, rfl⟩
    rw [findRow_mark_done, hf]
    rfl
  · refine ⟨errorRowUpdate e now2 (doneRowUpdate snap rt rid now1 r), ?_, rfl, rfl⟩
    rw [findRow_mark_error, findRow_mark_done, hf]
    rfl

section WorkerLemmas

lemma applyEffects_nil (now : Nat) (q : Queue) : applyEffects now q [] = q := rfl

lemma applyEffects_cons (now : Nat) (q : Queue) (e : WorkerEffect)
    (es : List WorkerEffect) :
    applyEffects now q (e :: es) = applyEffects now (applyEffect now q e) es := rfl

lemma applyEffects_append (now : Nat) (q : Queue) (es1 es2 : List WorkerEffect) :
    applyEffects now q (es1 ++ es2) = applyEffects now (applyEffects now q es1) es2 :=
  List.foldl_append _ _ _ _

lemma applyEffects_nonterminal (now : Nat) : ∀ (es : List WorkerEffect) (q : Queue),
    (∀ e ∈ es, ¬ isTerminalWrite e) → applyEffects now q es = q := by
  intro es
  induction es with
  | nil => intro q _; rfl
  | cons e es ih =>
    intro q h
    have he := h e (List.mem_cons_self _ _)
    have hr : applyEffect now q e = q := by
      cases e with
      | graphGetComment _ => rfl
      | adapterReply _ _ => rfl
      | graphReplyToComment _ _ => rfl
      | markDone _ _ _ _ => exact absurd trivial he
      | markError _ _ => exact absurd trivial he
    rw [applyEffects_cons, hr]
    exact ih q (fun x hx => h x (List.mem_cons_of_mem _ hx))

lemma build_reply_effects (c : Collab) (task : CommentTask) (comment : GraphComment) :
    (_build_reply c task comment).1 = [] ∨
    (_build_reply c task comment).1
      = [WorkerEffect.adapterReply (buildUserKey c task comment)
          (buildPrompt task comment)] := by
  unfold _build_reply
  cases c.llm with
  | none => exact Or.inl rfl
  | some llm => exact Or.inr rfl

lemma build_reply_nonterminal (c : Collab) (task : CommentTask) (comment : GraphComment) :
    ∀ x ∈ (_build_reply c task comment).1, ¬ isTerminalWrite x := by
  rcases build_reply_effects c task comment with h | h <;> rw [h]
  · simp
  · intro x hx
    rw [List.mem_singleton] at hx
    subst hx
    simp [isTerminalWrite]

lemma truncate_error_length (s : String) : (_truncate_error s).length ≤ 4000 := by
  show (s.data.take 4000).length ≤ 4000
  rw [List.length_take]
  omega

end WorkerLemmas

/-- C7: while the resolved reply mode is `off`, processing a claimed task
emits exactly one terminal `done` write — no Graph fetch, no adapter call,
no outbound send — and the resulting row is `done` with no reply text and no
reply_comment_id. -/
theorem mode_off_no_calls (c : Collab) (task : CommentTask) (q : Queue) (now : Nat)
    (env : String) (stored : Option String) (r : CommentTask)
    (hmode : get_comment_reply_mode env stored = "off")
    (hf : findRow task.id q = some r) :
    _process_task c (get_comment_reply_mode env stored) task
      = [.markDone task.id "off" none none] ∧
    (∀ e ∈ _process_task c (get_comment_reply_mode env stored) task,
      ¬ isExternalCall e) ∧
    ∃ r1, findRow task.id (applyEffects now q
        (_process_task c (get_comment_reply_mode env stored) task)) = some r1 ∧
      r1.status = "done" ∧ r1.reply_text = none ∧ r1.reply_comment_id = none ∧
      r1.reply_mode_snapshot = some "off" := by
  rw [hmode]
  have hes : _process_task c "off" task
      = [WorkerEffect.markDone task.id "off" none none] := rfl
  rw [hes]
  refine ⟨rfl, ?_, ?_⟩
  · intro e he
    rw [List.mem_singleton] at he
    subst he
    simp [isExternalCall]
  · show ∃ r1, findRow task.id
      (mark_comment_task_done task.id "off" none none now q) = some r1 ∧ _
    refine ⟨doneRowUpdate "off" none none now r, ?_, rfl, rfl, rfl, ?_⟩
    · rw [findRow_mark_done, hf]
      rfl
    · show some (_normalize_reply_mode "off") = some "off"
      decide

/-- The worker's collaborators for concrete instantiations: no adapter, a
Graph client whose calls raise. -/
def sampleCollab : Collab :=
  { hashFn := fun _ => 0,
    llm := none,
    get_comment := fun _ => .error "network down",
    reply_to_comment := fun _ _ => .error "network down" }

/-- Witness for C7 at a concrete task, queue and settings row. -/
theorem mode_off_no_calls_witness :
    ∃ r1, findRow 1 (applyEffects 6 sampleQueue
        (_process_task sampleCollab (get_comment_reply_mode "draft" (some "off"))
          (sampleTask 1 "c1" "todo" 5))) = some r1 ∧
      r1.status = "done" ∧ r1.reply_text = none ∧ r1.reply_comment_id = none := by
  obtain ⟨_, _, r1, hfind, hst, hrt, hrc, _⟩ :=
    mode_off_no_calls sampleCollab (sampleTask 1 "c1" "todo" 5) sampleQueue 6
      "draft" (some "off") (sampleTask 1 "c1" "todo" 5) (by decide) (by decide)
  exact ⟨r1, hfind, hst, hrt, hrc⟩

/-- C9: every collaborator failure during task processing is caught at the
task boundary: the effect trace always ends in exactly one terminal write;
a Graph-fetch, reply-construction, or send exception ends it with a
`markError` carrying the exception's message; and applying that trace leaves
the row with status `error` and `last_error` truncated to at most 4000
characters, so the worker loop survives the task's failure. -/
theorem task_failure_contained (c : Collab) (mode : String) (task : CommentTask)
    (q : Queue) (now : Nat) (r : CommentTask)
    (hf : findRow task.id q = some r) :
    (∃ pre last, _process_task c mode task = pre ++ [last] ∧ isTerminalWrite last ∧
       ∀ e ∈ pre, ¬ isTerminalWrite e) ∧
    (∀ e, mode ≠ "off" → c.get_comment task.comment_id = .error e →
       _process_task c mode task
         = [.graphGetComment task.comment_id, .markError task.id e]) ∧
    (∀ comment e, mode ≠ "off" → c.get_comment task.comment_id = .ok comment →
       (_build_reply c task comment).2 = .error e →
       _process_task c mode task
         = (WorkerEffect.graphGetComment task.comment_id :: (_build_reply c task comment).1)
            ++ [.markError task.id e]) ∧
    (∀ comment rt e, mode ≠ "off" → mode ≠ "draft" →
       c.get_comment task.comment_id = .ok comment →
       (_build_reply c task comment).2 = .ok rt →
       c.reply_to_comment task.comment_id rt = .error e →
       _process_task c mode task
         = (WorkerEffect.graphGetComment task.comment_id :: (_build_reply c task comment).1)
            ++ [.graphReplyToComment task.comment_id rt, .markError task.id e]) ∧
    (∀ pre e, _process_task c mode task = pre ++ [.markError task.id e] →
       (∀ x ∈ pre, ¬ isTerminalWrite x) →
       ∃ r2, findRow task.id (applyEffects now q (_process_task c mode task)) = some r2 ∧
         r2.status = "error" ∧
         ∃ s, r2.last_error = some s ∧ s.length ≤ 4000 ∧
           s = _truncate_error (if e = "" then "Unknown error" else e)) := by
  refine ⟨?_, ?_, ?_, ?_, ?_⟩
  · by_cases hoff : mode = "off"
    · refine ⟨[], .markDone task.id mode none none, ?_, trivial, by simp⟩
      simp only [_process_task]
      rw [if_pos hoff]
      rfl
    · rcases hg : c.get_comment task.comment_id with e | comment
      · refine ⟨[.graphGetComment task.comment_id], .markError task.id e, ?_, trivial, ?_⟩
        · simp only [_process_task]
          rw [if_neg hoff]
          simp only [hg]
          rfl
        · intro x hx
          rw [List.mem_singleton] at hx
          subst hx
          simp [isTerminalWrite]
      · have hbnt := build_reply_nonterminal c task comment
        have hpre : ∀ x ∈ WorkerEffect.graphGetComment task.comment_id ::
            (_build_reply c task comment).1, ¬ isTerminalWrite x := by
          intro x hx
          rcases List.mem_cons.mp hx with rfl | hx2
          · simp [isTerminalWrite]
          · exact hbnt x hx2
        rcases hb : (_build_reply c task comment).2 with e | rt
        · refine ⟨WorkerEffect.graphGetComment task.comment_id ::
              (_build_reply c task comment).1, .markError task.id e, ?_, trivial, hpre⟩
          simp only [_process_task]
          rw [if_neg hoff]
          simp only [hg, hb]
        · by_cases hdr : mode = "draft"
          · refine ⟨WorkerEffect.graphGetComment task.comment_id ::
                (_build_reply c task comment).1, .markDone task.id mode (some rt) none,
                ?_, trivial, hpre⟩
            simp only [_process_task]
            rw [if_neg hoff]
            simp only [hg, hb]
            rw [if_pos hdr]
          · rcases hs : c.reply_to_comment task.comment_id rt with e | sentId
            · refine ⟨(WorkerEffect.graphGetComment task.comment_id ::
                  (_build_reply c task comment).1)
                   ++ [.graphReplyToComment task.comment_id rt],
                  .markError task.id e, ?_, trivial, ?_⟩
              · simp only [_process_task]
                rw [if_neg hoff]
                simp only [hg, hb]
                rw [if_neg hdr]
                simp only [hs]
                simp [List.append_assoc]
              · intro x hx
                rcases List.mem_append.mp hx with hx1 | hx2
                · exact hpre x hx1
                · rw [List.mem_singleton] at hx2
                  subst hx2
                  simp [isTerminalWrite]
            · refine ⟨(WorkerEffect.graphGetComment task.comment_id ::
                  (_build_reply c task comment).1)
                   ++ [.graphReplyToComment task.comment_id rt],
                  .markDone task.id mode (some rt) (sentReplyId sentId), ?_, trivial, ?_⟩
              · simp only [_process_task]
                rw [if_neg hoff]
                simp only [hg, hb]
                rw [if_neg hdr]
                simp only [hs]
                simp [List.append_assoc]
              · intro x hx
                rcases List.mem_append.mp hx with hx1 | hx2
                · exact hpre x hx1
                · rw [List.mem_singleton] at hx2
                  subst hx2
                  simp [isTerminalWrite]
  · intro e hoff hg
    simp only [_process_task]
    rw [if_neg hoff]
    simp only [hg]
  · intro comment e hoff hg hb
    simp only [_process_task]
    rw [if_neg hoff]
    simp only [hg, hb]
  · intro comment rt e hoff hdr hg hb hs
    simp only [_process_task]
    rw [if_neg hoff]
    simp only [hg, hb]
    rw [if_neg hdr]
    simp only [hs]
  · intro pre e hes hpre
    rw [hes, applyEffects_append, applyEffects_nonterminal now pre q hpre]
    refine ⟨errorRowUpdate e now r, ?_, rfl, ?_⟩
    · show findRow task.id (mark_comment_task_error task.id e now q) = _
      rw [findRow_mark_error, hf]
      rfl
    · exact ⟨_, rfl, truncate_error_length _, rfl⟩

/-- Witness for C9: a Graph fetch failure at a concrete task leaves the row
in status `error` with a bounded message. -/
theorem task_failure_contained_witness :
    ∃ r2, findRow 1 (applyEffects 7 sampleQueue
        (_process_task sampleCollab "auto" (sampleTask 1 "c1" "todo" 5))) = some r2 ∧
      r2.status = "error" ∧
      ∃ s, r2.last_error = some s ∧ s.length ≤ 4000 := by
  have thm := task_failure_contained sampleCollab "auto" (sampleTask 1 "c1" "todo" 5)
    sampleQueue 7 (sampleTask 1 "c1" "todo" 5) (by decide)
  have h2 := thm.2.1 "network down" (by decide) rfl
  obtain ⟨r2, hfind, hst, s, hs1, hs2, _⟩ :=
    thm.2.2.2.2 [.graphGetComment "c1"] "network down" (by rw [h2]; rfl) (by decide)
  exact ⟨r2, hfind, hst, s, hs1, hs2⟩

section AdapterLemmas

lemma dropWhile_expired_eq_filter (w now : Int) : ∀ (ts : List Int),
    ts.Pairwise (· ≤ ·) →
    ts.dropWhile (fun t => now - t > w) = ts.filter (fun t => now - t ≤ w) := by
  intro ts
  induction ts with
  | nil => intro _; rfl
  | cons t ts ih =>
    intro hp
    rw [List.pairwise_cons] at hp
    by_cases h : now - t > w
    · rw [List.dropWhile_cons_of_pos (by simp only [decide_eq_true_eq]; exact h),
          List.filter_cons_of_neg (by simp only [decide_eq_true_eq]; omega)]
      exact ih hp.2
    · rw [List.dropWhile_cons_of_neg (by simp only [decide_eq_true_eq]; omega),
          List.filter_cons_of_pos (by simp only [decide_eq_true_eq]; omega)]
      have hall : ∀ u ∈ ts, (decide (now - u ≤ w)) = true := by
        intro u hu
        have := hp.1 u hu
        simp only [decide_eq_true_eq]
        omega
      rw [List.filter_eq_self.mpr hall]

lemma reserve_history (cfg : AdapterConfig) (st : AdapterState) (uid : Nat) (now : Int) :
    (_reserve_request_and_get_history cfg st uid now).2.history = st.history := by
  simp only [_reserve_request_and_get_history]
  by_cases h : cfg.rate_limit_max_requests ≤
      ((st.requests uid).dropWhile (fun t => now - t > cfg.rate_limit_window_seconds)).length
  · rw [if_pos h]
  · rw [if_neg h]

lemma reserve_fst (cfg : AdapterConfig) (st : AdapterState) (uid : Nat) (now : Int) :
    (_reserve_request_and_get_history cfg st uid now).1 = none ∨
    (_reserve_request_and_get_history cfg st uid now).1 = some (st.history uid) := by
  simp only [_reserve_request_and_get_history]
  by_cases h : cfg.rate_limit_max_requests ≤
      ((st.requests uid).dropWhile (fun t => now - t > cfg.rate_limit_window_seconds)).length
  · rw [if_pos h]
    exact Or.inl rfl
  · rw [if_neg h]
    exact Or.inr rfl

lemma append_history_zero (cfg : AdapterConfig) (h : cfg.memory_size = 0)
    (st : AdapterState) (uid : Nat) (role content : String) :
    _append_history cfg st uid role content = st := by
  unfold _append_history
  rw [if_pos h]

lemma reply_history_zero (cfg : AdapterConfig) (h : cfg.memory_size = 0)
    (st : AdapterState) (uid : Nat) (text : String) (now : Int)
    (outcome : HttpOutcome) :
    (reply cfg st uid text now outcome).2.history = st.history := by
  unfold reply
  by_cases ht : pyStrip text = ""
  · rw [if_pos ht]
  · rw [if_neg ht]
    have hh := reserve_history cfg st uid now
    rcases hres : _reserve_request_and_get_history cfg st uid now with ⟨os, st1⟩
    rw [hres] at hh
    simp only [hres]
    rcases os with _ | snap
    · exact hh
    · rcases _call_model outcome with m | _ | a
      · exact hh
      · exact hh
      · simp only [append_history_zero cfg h]
        exact hh

lemma runReplies_history_zero (cfg : AdapterConfig) (h : cfg.memory_size = 0) :
    ∀ (calls : List ReplyCall) (st : AdapterState),
    (runReplies cfg st calls).1.history = st.history := by
  intro calls
  induction calls with
  | nil => intro st; rfl
  | cons c cs ih =>
    intro st
    show (runReplies cfg (reply cfg st c.uid c.text c.now c.outcome).2 cs).1.history = _
    rw [ih, reply_history_zero cfg h]

lemma takeLast_length_le (n : Nat) (l : List Msg) : (takeLast n l).length ≤ n := by
  show (l.drop (l.length - n)).length ≤ n
  rw [List.length_drop]
  omega

lemma appendBounded_takeLast (n : Nat) (hn : 0 < n) (L : List Msg) (m : Msg) :
    appendBounded (some n) (takeLast n L) m = takeLast n (L ++ [m]) := by
  unfold appendBounded takeLast
  dsimp only
  by_cases h : L.length < n
  · have e1 : L.length - n = 0 := by omega
    rw [e1]
    simp
  · have hlen : (L.drop (L.length - n)).length = n := by
      rw [List.length_drop]
      omega
    have e1 : (L.drop (L.length - n) ++ [m]).length - n = 1 := by
      rw [List.length_append, hlen]
      simp
    have e2 : (L ++ [m]).length - n = (L.length - n) + 1 := by
      simp only [List.length_append, List.length_cons, List.length_nil]
      omega
    rw [e1, e2]
    rw [List.drop_append_of_le_length (by rw [hlen]; omega),
        List.drop_append_of_le_length (by omega)]
    rw [List.drop_drop]

lemma appendRun_history (cfg : AdapterConfig) (hn : cfg.memory_size ≠ 0) :
    ∀ (msgs : List Msg) (st : AdapterState) (uid : Nat) (L : List Msg),
    st.history uid = takeLast cfg.memory_size L →
    (appendRun cfg st uid msgs).history uid = takeLast cfg.memory_size (L ++ msgs) := by
  intro msgs
  induction msgs with
  | nil =>
    intro st uid L h
    simpa using h
  | cons m ms ih =>
    intro st uid L h
    show (appendRun cfg (_append_history cfg st uid m.role m.content) uid ms).history uid = _
    have hstep : (_append_history cfg st uid m.role m.content).history uid
        = takeLast cfg.memory_size (L ++ [m]) := by
      unfold _append_history
      rw [if_neg hn]
      show (if uid = uid then appendBounded (histMaxlen cfg) (st.history uid) ⟨m.role, m.content⟩
        else st.history uid) = _
      rw [if_pos rfl]
      unfold histMaxlen
      rw [if_neg hn, h]
      exact appendBounded_takeLast _ (Nat.pos_of_ne_zero hn) L m
    rw [show L ++ m :: ms = (L ++ [m]) ++ ms by simp]
    exact ih _ uid (L ++ [m]) hstep

lemma call_model_user_facing_mem (outcome : HttpOutcome) (m : String)
    (h : _call_model outcome = .userFacing m) : m ∈ userSafeFailureMessages := by
  cases outcome with
  | ok content => simp [_call_model] at h
  | httpError code apiCode =>
    simp only [_call_model] at h
    by_cases h1 : code = 401
    · rw [if_pos h1] at h
      injection h with h2
      subst h2
      simp [userSafeFailureMessages]
    · rw [if_neg h1] at h
      by_cases h2 : code = 429 ∧ apiCode = some "insufficient_quota"
      · rw [if_pos h2] at h
        injection h with h3
        subst h3
        simp [userSafeFailureMessages]
      · rw [if_neg h2] at h
        by_cases h3 : code = 429
        · rw [if_pos h3] at h
          injection h with h4
          subst h4
          simp [userSafeFailureMessages]
        · rw [if_neg h3] at h
          by_cases h4 : 500 ≤ code ∧ code < 600
          · rw [if_pos h4] at h
            injection h with h5
            subst h5
            simp [userSafeFailureMessages]
          · rw [if_neg h4] at h
            cases h
  | netError =>
    simp only [_call_model] at h
    injection h with h2
    subst h2
    simp [userSafeFailureMessages]
  | timeoutErr =>
    simp only [_call_model] at h
    injection h with h2
    subst h2
    simp [userSafeFailureMessages]
  | badShape => simp [_call_model] at h

end AdapterLemmas

/-- C4: the rate-limit reservation first drops that user's expired timestamps
(on a time-sorted sequence, popping the expired prefix equals keeping exactly
the in-window timestamps); if the remaining count reaches the configured
maximum it refuses without recording a new timestamp, otherwise it records
`now` and snapshots the history; and with max 2 per 60-second window, three
rapid `reply` calls yield success, success, rate-limited-message in order. -/
theorem rate_limit_reservation (cfg : AdapterConfig) (st : AdapterState) (uid : Nat)
    (now : Int) (hs : (st.requests uid).Pairwise (· ≤ ·)) :
    (cfg.rate_limit_max_requests ≤
        ((st.requests uid).filter
          (fun t => now - t ≤ cfg.rate_limit_window_seconds)).length →
      (_reserve_request_and_get_history cfg st uid now).1 = none ∧
      (_reserve_request_and_get_history cfg st uid now).2.requests uid
        = (st.requests uid).filter (fun t => now - t ≤ cfg.rate_limit_window_seconds) ∧
      (_reserve_request_and_get_history cfg st uid now).2.history = st.history) ∧
    (((st.requests uid).filter
        (fun t => now - t ≤ cfg.rate_limit_window_seconds)).length
        < cfg.rate_limit_max_requests →
      (_reserve_request_and_get_history cfg st uid now).1 = some (st.history uid) ∧
      (_reserve_request_and_get_history cfg st uid now).2.requests uid
        = (st.requests uid).filter (fun t => now - t ≤ cfg.rate_limit_window_seconds)
           ++ [now] ∧
      (_reserve_request_and_get_history cfg st uid now).2.history = st.history) ∧
    (runReplies (LLMAdapter.init 8 2 60 1500 1200) emptyAdapterState
       [⟨1, "hi", 0, .ok "a1"⟩, ⟨1, "hi", 1, .ok "a2"⟩, ⟨1, "hi", 2, .ok "a3"⟩]).2
      = ["a1", "a2", MSG_RATE_LIMITED] := by
  have hdw := dropWhile_expired_eq_filter cfg.rate_limit_window_seconds now
    (st.requests uid) hs
  refine ⟨?_, ?_, by decide⟩
  · intro hle
    simp only [_reserve_request_and_get_history, hdw]
    rw [if_pos hle]
    exact ⟨rfl, by simp, rfl⟩
  · intro hlt
    simp only [_reserve_request_and_get_history, hdw]
    rw [if_neg (by omega)]
    exact ⟨rfl, by simp, rfl⟩

/-- Witness for C4: a first reservation on an empty history succeeds, and the
three-call scenario produces success, success, rate-limited. -/
theorem rate_limit_reservation_witness :
    (_reserve_request_and_get_history (LLMAdapter.init 8 2 60 1500 1200)
        emptyAdapterState 1 0).1 = some [] ∧
    (runReplies (LLMAdapter.init 8 2 60 1500 1200) emptyAdapterState
       [⟨1, "hi", 0, .ok "a1"⟩, ⟨1, "hi", 1, .ok "a2"⟩, ⟨1, "hi", 2, .ok "a3"⟩]).2
      = ["a1", "a2", MSG_RATE_LIMITED] := by
  have thm := rate_limit_reservation (LLMAdapter.init 8 2 60 1500 1200)
    emptyAdapterState 1 0 (by decide)
  obtain ⟨h1, _, _⟩ := thm.2.1 (by decide)
  exact ⟨h1, thm.2.2⟩

/-- C10: when a `reply` call passes the rate-limit reservation but the model
request then fails (user-facing API error or unexpected exception), the call
returns one of the fixed user-safe messages instead of raising, the user's
conversational history is unchanged — and the timestamp reserved before the
call stays recorded, so the failed call still consumed one rate-limit slot. -/
theorem reply_failure_safe (cfg : AdapterConfig) (st : AdapterState) (uid : Nat)
    (text0 : String) (now : Int) (outcome : HttpOutcome)
    (htext : pyStrip text0 ≠ "")
    (hpass : ((st.requests uid).dropWhile
        (fun t => now - t > cfg.rate_limit_window_seconds)).length
      < cfg.rate_limit_max_requests)
    (hfail : ∀ a, _call_model outcome ≠ .answer a) :
    (reply cfg st uid text0 now outcome).1 ∈ userSafeFailureMessages ∧
    (reply cfg st uid text0 now outcome).2.history = st.history ∧
    (reply cfg st uid text0 now outcome).2.requests uid
      = ((st.requests uid).dropWhile
          (fun t => now - t > cfg.rate_limit_window_seconds)) ++ [now] := by
  have hres : _reserve_request_and_get_history cfg st uid now
      = (some (st.history uid),
         AdapterState.mk st.history
           (fun u => if u = uid then
              ((st.requests uid).dropWhile
                (fun t => now - t > cfg.rate_limit_window_seconds)) ++ [now]
            else st.requests u)) := by
    simp only [_reserve_request_and_get_history]
    rw [if_neg (by omega)]
  rcases hcall : _call_model outcome with m | _ | a
  · have hrep : reply cfg st uid text0 now outcome
        = (m, AdapterState.mk st.history
           (fun u => if u = uid then
              ((st.requests uid).dropWhile
                (fun t => now - t > cfg.rate_limit_window_seconds)) ++ [now]
            else st.requests u)) := by
      simp only [reply]
      rw [if_neg htext]
      simp only [hres, hcall]
    rw [hrep]
    exact ⟨call_model_user_facing_mem outcome m hcall, rfl, by simp⟩
  · have hrep : reply cfg st uid text0 now outcome
        = (MSG_GENERIC_FAIL, AdapterState.mk st.history
           (fun u => if u = uid then
              ((st.requests uid).dropWhile
                (fun t => now - t > cfg.rate_limit_window_seconds)) ++ [now]
            else st.requests u)) := by
      simp only [reply]
      rw [if_neg htext]
      simp only [hres, hcall]
    rw [hrep]
    exact ⟨by simp [userSafeFailureMessages], rfl, by simp⟩
  · exact absurd hcall (hfail a)

/-- Witness for C10: a network failure on a first call returns a user-safe
message, leaves the history empty, and still consumes one slot. -/
theorem reply_failure_safe_witness :
    (reply (LLMAdapter.init 8 5 60 1500 1200) emptyAdapterState 1 "hi" 0
        .netError).1 ∈ userSafeFailureMessages ∧
    (reply (LLMAdapter.init 8 5 60 1500 1200) emptyAdapterState 1 "hi" 0
        .netError).2.history = emptyAdapterState.history ∧
    (reply (LLMAdapter.init 8 5 60 1500 1200) emptyAdapterState 1 "hi" 0
        .netError).2.requests 1 = [0] := by
  obtain ⟨h1, h2, h3⟩ :=
    reply_failure_safe (LLMAdapter.init 8 5 60 1500 1200) emptyAdapterState 1 "hi" 0
      .netError (by decide) (by decide)
      (by intro a h; simp [_call_model] at h)
  exact ⟨h1, h2, h3⟩

/-- C5: with a nonzero bound, a user's history is always the last
`memory_size` turns of everything appended for that user (strict FIFO
eviction) and so never exceeds `memory_size`; with a bound of zero no turn is
ever stored and every reservation snapshot is empty; and with bound 2, after
3 user/assistant exchanges the next request's snapshot holds exactly the most
recent 2 turns. -/
theorem memory_bound (cfg : AdapterConfig) :
    (∀ (msgs : List Msg) (st : AdapterState) (uid : Nat) (L : List Msg),
       cfg.memory_size ≠ 0 →
       st.history uid = takeLast cfg.memory_size L →
       (appendRun cfg st uid msgs).history uid = takeLast cfg.memory_size (L ++ msgs) ∧
       ((appendRun cfg st uid msgs).history uid).length ≤ cfg.memory_size) ∧
    (cfg.memory_size = 0 →
       ∀ (calls : List ReplyCall) (st : AdapterState),
         (runReplies cfg st calls).1.history = st.history) ∧
    (cfg.memory_size = 0 →
       ∀ (st : AdapterState) (uid : Nat) (now : Int), (∀ u, st.history u = []) →
         (_reserve_request_and_get_history cfg st uid now).1 = none ∨
         (_reserve_request_and_get_history cfg st uid now).1 = some []) ∧
    ((_reserve_request_and_get_history (LLMAdapter.init 2 5 60 1500 1200)
        (runReplies (LLMAdapter.init 2 5 60 1500 1200) emptyAdapterState
          [⟨1, "u1", 0, .ok "a1"⟩, ⟨1, "u2", 1, .ok "a2"⟩, ⟨1, "u3", 2, .ok "a3"⟩]).1
        1 3).1 = some [⟨"user", "u3"⟩, ⟨"assistant", "a3"⟩]) := by
  refine ⟨?_, ?_, ?_, by decide⟩
  · intro msgs st uid L hn h
    have hh := appendRun_history cfg hn msgs st uid L h
    exact ⟨hh, by rw [hh]; exact takeLast_length_le _ _⟩
  · intro h calls st
    exact runReplies_history_zero cfg h calls st
  · intro _ st uid now hall
    rcases reserve_fst cfg st uid now with h1 | h1
    · exact Or.inl h1
    · right
      rw [h1, hall uid]

/-- Witness for C5: zero memory stores nothing; with bound 2 the snapshot
after 3 exchanges holds the last 2 turns. -/
theorem memory_bound_witness :
    (runReplies (LLMAdapter.init 0 5 60 1500 1200) emptyAdapterState
       [⟨1, "u1", 0, .ok "a1"⟩]).1.history = emptyAdapterState.history ∧
    (_reserve_request_and_get_history (LLMAdapter.init 2 5 60 1500 1200)
        (runReplies (LLMAdapter.init 2 5 60 1500 1200) emptyAdapterState
          [⟨1, "u1", 0, .ok "a1"⟩, ⟨1, "u2", 1, .ok "a2"⟩, ⟨1, "u3", 2, .ok "a3"⟩]).1
        1 3).1 = some [⟨"user", "u3"⟩, ⟨"assistant", "a3"⟩] :=
  ⟨(memory_bound (LLMAdapter.init 0 5 60 1500 1200)).2.1 (by decide) _ _,
   (memory_bound (LLMAdapter.init 2 5 60 1500 1200)).2.2.2⟩

/-- Witness for C8 at a concrete queue and id. -/
theorem complete_then_fail_witness :
    ∃ r2, findRow 2 (mark_comment_task_error 2 "boom" 11
        (mark_comment_task_done 2 "auto" (some "ok") none 10 sampleQueue)) = some r2 ∧
      r2.status = "error" ∧
      r2.last_error = some (_truncate_error "boom") := by
  obtain ⟨_, r2, hfind, hst, herr⟩ :=
    complete_then_fail sampleQueue 2 (sampleTask 2 "c2" "done" 3) "auto"
      (some "ok") none "boom" 10 11 (by decide)
  refine ⟨r2, hfind, hst, ?_⟩
  rw [herr]
  decide

end TryInsta
